import Mathlib

/-!
Verification of the portable-packager repository: a shallow embedding of
`trace_xml_to_config.py` and `portable_packager.py` together with theorems
settling the specification claims about them.

Strings are modelled through their character lists (`String.data`); Python
text predicates (`str.strip`, `str.lower`, `str.isalnum`, …) are modelled on
their ASCII fragment, which is the fragment exercised by Windows paths,
registry keys, service and task names that this program manipulates.
-/

set_option maxHeartbeats 1000000

namespace PyStr

/-- ASCII whitespace stripped by Python `str.strip()` (ASCII fragment of the
Unicode whitespace set). -/
def isPyWhitespace (c : Char) : Bool :=
  c == ' ' || c == '\t' || c == '\n' || c == '\r' || c == '\x0b' || c == '\x0c'

/-- Drop the longest run of characters satisfying `p` from the end of a list,
as Python `str.rstrip` does for a character set. -/
def rdropWhile (p : Char → Bool) (l : List Char) : List Char :=
  (l.reverse.dropWhile p).reverse

/-- Python `str.strip(chars)`: remove characters satisfying `p` from both
ends (right end first; the order of the two ends does not matter). -/
def stripWhile (p : Char → Bool) (l : List Char) : List Char :=
  (rdropWhile p l).dropWhile p

/-- Python `value.strip()` on a string (ASCII whitespace fragment). -/
def pyStrip (s : String) : String :=
  String.mk (stripWhile isPyWhitespace s.data)

/-- Python `str.lower()` (ASCII fragment). -/
def toLowerStr (s : String) : String :=
  String.mk (s.data.map Char.toLower)

/-- Python `str.upper()` (ASCII fragment). -/
def toUpperStr (s : String) : String :=
  String.mk (s.data.map Char.toUpper)

/-- Boolean prefix test on character lists (Python `str.startswith`). -/
def isPrefixCh : List Char → List Char → Bool
  | [], _ => true
  | _ :: _, [] => false
  | c :: cs, d :: ds => c == d && isPrefixCh cs ds

/-- Python `s.startswith(pre)`. -/
def startsWithStr (s pre : String) : Bool :=
  isPrefixCh pre.data s.data

/-- Boolean infix test on character lists (Python `sub in s`). -/
def isInfixCh (p : List Char) : List Char → Bool
  | [] => p.isEmpty
  | l@(_ :: t) => isPrefixCh p l || isInfixCh p t

/-- Python `sub in s` for strings. -/
def containsStr (s sub : String) : Bool :=
  isInfixCh sub.data s.data

/-- Lexicographic code-point comparison on character lists; this is the
order Python uses to compare strings. -/
def lexLe : List Char → List Char → Bool
  | [], _ => true
  | _ :: _, [] => false
  | c :: cs, d :: ds => if c < d then true else if d < c then false else lexLe cs ds

/-- Python string `<=` (lexicographic by code point). -/
def strLe (a b : String) : Bool :=
  lexLe a.data b.data

theorem isPrefixCh_iff : ∀ (p l : List Char), isPrefixCh p l = true ↔ p <+: l := by
  intro p
  induction p with
  | nil => intro l; simp [isPrefixCh]
  | cons c cs ih =>
    intro l
    cases l with
    | nil => simp [isPrefixCh]
    | cons d ds =>
      simp only [isPrefixCh, Bool.and_eq_true, beq_iff_eq, ih ds, List.cons_prefix_cons]

theorem lexLe_total : ∀ (a b : List Char), lexLe a b = true ∨ lexLe b a = true := by
  intro a
  induction a with
  | nil => intro b; left; simp [lexLe]
  | cons c cs ih =>
    intro b
    cases b with
    | nil => right; simp [lexLe]
    | cons d ds =>
      by_cases h1 : c < d
      · left; simp [lexLe, h1]
      · by_cases h2 : d < c
        · right; simp [lexLe, h2, h1]
        · have hcd : c = d := le_antisymm (not_lt.mp h2) (not_lt.mp h1)
          subst hcd
          rcases ih ds with h | h
          · left; simp [lexLe, h1, h]
          · right; simp [lexLe, h1, h]

theorem lexLe_trans : ∀ (a b c : List Char), lexLe a b = true → lexLe b c = true →
    lexLe a c = true := by
  intro a
  induction a with
  | nil => intro b c _ _; simp [lexLe]
  | cons x xs ih =>
    intro b c hab hbc
    cases b with
    | nil => simp [lexLe] at hab
    | cons y ys =>
      cases c with
      | nil => simp [lexLe] at hbc
      | cons z zs =>
        simp only [lexLe] at hab hbc ⊢
        by_cases hxy : x < y
        · by_cases hyz : y < z
          · simp [lt_trans hxy hyz]
          · by_cases hzy : z < y
            · simp [lexLe, hyz, hzy] at hbc
            · have : y = z := le_antisymm (not_lt.mp hzy) (not_lt.mp hyz)
              subst this
              simp [hxy]
        · by_cases hyx : y < x
          · simp [hxy, hyx] at hab
          · have hxyeq : x = y := le_antisymm (not_lt.mp hyx) (not_lt.mp hxy)
            subst hxyeq
            simp only [hxy, if_neg, ite_self, lt_irrefl, if_false] at hab
            by_cases hxz : x < z
            · simp [hxz]
            · by_cases hzx : z < x
              · simp [hxz, hzx] at hbc
              · have : x = z := le_antisymm (not_lt.mp hzx) (not_lt.mp hxz)
                subst this
                simp only [lt_irrefl, if_false] at hab hbc ⊢
                exact ih _ _ hab hbc

theorem lexLe_antisymm : ∀ (a b : List Char), lexLe a b = true → lexLe b a = true →
    a = b := by
  intro a
  induction a with
  | nil =>
    intro b _ hba
    cases b with
    | nil => rfl
    | cons d ds => simp [lexLe] at hba
  | cons c cs ih =>
    intro b hab hba
    cases b with
    | nil => simp [lexLe] at hab
    | cons d ds =>
      simp only [lexLe] at hab hba
      by_cases h1 : c < d
      · simp [h1, asymm h1] at hba
      · by_cases h2 : d < c
        · simp [h1, h2] at hab
        · have hcd : c = d := le_antisymm (not_lt.mp h2) (not_lt.mp h1)
          subst hcd
          simp only [lt_irrefl, if_false] at hab hba
          rw [ih ds hab hba]

end PyStr

namespace TraceXmlToConfig

open PyStr

/-- Character-list body of `normalize_path` from `trace_xml_to_config.py`:
`value.strip().strip('"').replace("/", "\\")`, then append a trailing
backslash when the value ends in `:`. -/
def normChars (l : List Char) : List Char :=
  let v := stripWhile isPyWhitespace l
  let v := stripWhile (fun c => c == '"') v
  let v := v.map (fun c => if c == '/' then '\\' else c)
  if v.getLast? == some ':' then v ++ ['\\'] else v

/-- Embeds `normalize_path` from `trace_xml_to_config.py`. -/
def normalize_path (value : String) : String :=
  String.mk (normChars value.data)

theorem head?_dropWhile_false {p : Char → Bool} :
    ∀ {l : List Char} {c : Char}, (l.dropWhile p).head? = some c → p c = false := by
  intro l
  induction l with
  | nil => intro c h; simp [List.dropWhile] at h
  | cons a t ih =>
    intro c h
    rw [List.dropWhile_cons] at h
    by_cases hp : p a = true
    · rw [if_pos hp] at h; exact ih h
    · rw [if_neg hp] at h
      simp only [List.head?_cons, Option.some.injEq] at h
      subst h
      exact Bool.eq_false_iff.mpr hp

theorem getLast?_rdropWhile_false {p : Char → Bool} {l : List Char} {c : Char}
    (h : (rdropWhile p l).getLast? = some c) : p c = false := by
  rw [rdropWhile, List.getLast?_reverse] at h
  exact head?_dropWhile_false h

theorem head?_stripWhile_false {p : Char → Bool} {l : List Char} {c : Char}
    (h : (stripWhile p l).head? = some c) : p c = false :=
  head?_dropWhile_false h

theorem mem_of_head? {l : List Char} {c : Char} (h : l.head? = some c) : c ∈ l := by
  cases l with
  | nil => simp at h
  | cons a t => simp at h; simp [h]

theorem mem_of_getLast? {l : List Char} {c : Char} (h : l.getLast? = some c) : c ∈ l := by
  rw [← List.head?_reverse] at h
  have := mem_of_head? h
  simpa using this

theorem getLast?_suffix_eq {l m : List Char} (hs : l <:+ m) (hne : l ≠ []) :
    m.getLast? = l.getLast? := by
  obtain ⟨t, rfl⟩ := hs
  rw [List.getLast?_append]
  cases hl : l.getLast? with
  | none => exact absurd (List.getLast?_eq_none_iff.mp hl) hne
  | some c => simp [Option.or]

theorem getLast?_stripWhile_false {p : Char → Bool} {l : List Char} {c : Char}
    (h : (stripWhile p l).getLast? = some c) : p c = false := by
  rw [stripWhile] at h
  have hsuff := List.dropWhile_suffix (l := rdropWhile p l) p
  by_cases hnil : (rdropWhile p l).dropWhile p = []
  · rw [hnil] at h; simp at h
  · have heq := getLast?_suffix_eq hsuff hnil
    exact getLast?_rdropWhile_false (heq ▸ h)

theorem mem_stripWhile {p : Char → Bool} {l : List Char} {c : Char}
    (h : c ∈ stripWhile p l) : c ∈ l := by
  have h1 : c ∈ rdropWhile p l := ((List.dropWhile_sublist p).mem h)
  rw [rdropWhile] at h1
  have h2 : c ∈ (l.reverse.dropWhile p) := by simpa using h1
  have := (List.dropWhile_sublist (l := l.reverse) p).mem h2
  simpa using this

theorem dropWhile_noop {p : Char → Bool} {l : List Char}
    (h : ∀ c, l.head? = some c → p c = false) : l.dropWhile p = l := by
  cases l with
  | nil => rfl
  | cons a t =>
    rw [List.dropWhile_cons, if_neg]
    simp [h a rfl]

theorem rdropWhile_noop {p : Char → Bool} {l : List Char}
    (h : ∀ c, l.getLast? = some c → p c = false) : rdropWhile p l = l := by
  rw [rdropWhile, dropWhile_noop, List.reverse_reverse]
  intro c hc
  rw [List.head?_reverse] at hc
  exact h c hc

theorem stripWhile_noop {p : Char → Bool} {l : List Char}
    (hh : ∀ c, l.head? = some c → p c = false)
    (hl : ∀ c, l.getLast? = some c → p c = false) : stripWhile p l = l := by
  rw [stripWhile, rdropWhile_noop hl, dropWhile_noop hh]

theorem stripWhile_noop_of_all {p : Char → Bool} {l : List Char}
    (h : ∀ c ∈ l, p c = false) : stripWhile p l = l :=
  stripWhile_noop (fun c hc => h c (mem_of_head? hc)) (fun c hc => h c (mem_of_getLast? hc))

theorem map_noop {f : Char → Char} {l : List Char}
    (h : ∀ c ∈ l, f c = c) : l.map f = l := by
  rw [List.map_congr_left h]
  exact List.map_id l

/-- Fixpoint condition: `normChars` leaves a list unchanged when its ends are
not whitespace or quotes, it has no forward slash, and it does not end in a
colon. -/
theorem normChars_fixpoint {l : List Char}
    (hwh : ∀ c, l.head? = some c → isPyWhitespace c = false)
    (hwl : ∀ c, l.getLast? = some c → isPyWhitespace c = false)
    (hq : ∀ c ∈ l, c ≠ '"')
    (hsl : ∀ c ∈ l, c ≠ '/')
    (hcolon : l.getLast? ≠ some ':') : normChars l = l := by
  rw [normChars]
  rw [stripWhile_noop hwh hwl]
  rw [stripWhile_noop_of_all (fun c hc => by simp [hq c hc])]
  rw [map_noop (fun c hc => by simp [hsl c hc])]
  rw [if_neg (by simpa using hcolon)]

theorem ws_backslash : isPyWhitespace '\\' = false := by decide

theorem normChars_idem_of_no_quote {l : List Char} (hq : ∀ c ∈ l, c ≠ '"') :
    normChars (normChars l) = normChars l := by
  have hv2 : stripWhile (fun c => c == '"') (stripWhile isPyWhitespace l)
      = stripWhile isPyWhitespace l := by
    apply stripWhile_noop_of_all
    intro c hc
    simpa using hq c (mem_stripWhile hc)
  have hnorm : normChars l =
      (if ((stripWhile isPyWhitespace l).map (fun c => if c == '/' then '\\' else c)).getLast?
          == some ':' then
        ((stripWhile isPyWhitespace l).map (fun c => if c == '/' then '\\' else c)) ++ ['\\']
      else
        ((stripWhile isPyWhitespace l).map (fun c => if c == '/' then '\\' else c))) := by
    simp only [normChars, hv2]
  have hfchar : ∀ c₀ : Char, (if c₀ == '/' then '\\' else c₀) = '\\' ∨
      ((if c₀ == '/' then '\\' else c₀) = c₀ ∧ c₀ ≠ '/') := by
    intro c₀
    by_cases h : c₀ = '/'
    · left; simp [h]
    · right; exact ⟨by simp [h], h⟩
  -- facts about v3, the mapped stripped list
  have hhead3 : ∀ c, (((stripWhile isPyWhitespace l).map
      (fun c => if c == '/' then '\\' else c)).head? = some c) → isPyWhitespace c = false := by
    intro c hc
    rw [List.head?_map] at hc
    obtain ⟨c₀, hh, hfc⟩ := Option.map_eq_some'.mp hc
    rcases hfchar c₀ with h | ⟨h, _⟩
    · rw [← hfc, h]; exact ws_backslash
    · rw [← hfc, h]; exact head?_stripWhile_false hh
  have hlast3 : ∀ c, (((stripWhile isPyWhitespace l).map
      (fun c => if c == '/' then '\\' else c)).getLast? = some c) → isPyWhitespace c = false := by
    intro c hc
    rw [List.getLast?_map] at hc
    obtain ⟨c₀, hh, hfc⟩ := Option.map_eq_some'.mp hc
    rcases hfchar c₀ with h | ⟨h, _⟩
    · rw [← hfc, h]; exact ws_backslash
    · rw [← hfc, h]; exact getLast?_stripWhile_false hh
  have hmem3 : ∀ c ∈ ((stripWhile isPyWhitespace l).map
      (fun c => if c == '/' then '\\' else c)), c ≠ '"' ∧ c ≠ '/' := by
    intro c hc
    obtain ⟨c₀, hc₀, hfc⟩ := List.mem_map.mp hc
    rcases hfchar c₀ with h | ⟨h, hne⟩
    · rw [← hfc, h]; exact ⟨by decide, by decide⟩
    · rw [← hfc, h]
      exact ⟨hq c₀ (mem_stripWhile hc₀), hne⟩
  rw [hnorm]
  by_cases hcol : (((stripWhile isPyWhitespace l).map
      (fun c => if c == '/' then '\\' else c)).getLast? == some ':') = true
  · rw [if_pos hcol]
    apply normChars_fixpoint
    · intro c hc
      cases hv : ((stripWhile isPyWhitespace l).map
          (fun c => if c == '/' then '\\' else c)) with
      | nil =>
        rw [hv] at hc
        simp only [List.nil_append, List.head?_cons, Option.some.injEq] at hc
        rw [← hc]; exact ws_backslash
      | cons a t =>
        rw [hv, List.cons_append, List.head?_cons] at hc
        apply hhead3 c
        rw [hv, List.head?_cons]
        exact hc
    · intro c hc
      rw [List.getLast?_concat] at hc
      simp only [Option.some.injEq] at hc
      subst hc
      exact ws_backslash
    · intro c hc
      rcases List.mem_append.mp hc with h | h
      · exact (hmem3 c h).1
      · simp at h; rw [h]; decide
    · intro c hc
      rcases List.mem_append.mp hc with h | h
      · exact (hmem3 c h).2
      · simp at h; rw [h]; decide
    · rw [List.getLast?_concat]; decide
  · rw [if_neg hcol]
    apply normChars_fixpoint
    · exact hhead3
    · exact hlast3
    · intro c hc; exact (hmem3 c hc).1
    · intro c hc; exact (hmem3 c hc).2
    · intro hcontra
      exact hcol (by rw [hcontra]; decide)

/-- C3 (amended): `normalize_path` is idempotent on every input containing no
double-quote character. -/
theorem normalize_path_idempotent_of_no_quote (x : String)
    (hq : ∀ c ∈ x.data, c ≠ '"') :
    normalize_path (normalize_path x) = normalize_path x := by
  show String.mk (normChars (normChars x.data)) = String.mk (normChars x.data)
  rw [normChars_idem_of_no_quote hq]

/-- Witness for the amended C3 at a concrete input that exercises whitespace
trimming, slash conversion and the drive-colon rule. -/
theorem normalize_path_idempotent_witness :
    normalize_path (normalize_path " C:/Program Files/Foo ") =
      normalize_path " C:/Program Files/Foo " :=
  normalize_path_idempotent_of_no_quote " C:/Program Files/Foo " (by decide)

/-- C3 counterexample: `normalize_path` is not idempotent. Stripping the quote
of `"␣a` exposes a leading space that only a second application removes. -/
theorem normalize_path_not_idempotent :
    normalize_path "\" a" = " a" ∧
    normalize_path (normalize_path "\" a") = "a" ∧
    normalize_path (normalize_path "\" a") ≠ normalize_path "\" a" := by
  refine ⟨by decide, by decide, by decide⟩

/-- Normalization used inside `is_subpath`: `s.rstrip("\\").lower()`. -/
def subNorm (s : String) : List Char :=
  (rdropWhile (fun c => c == '\\') s.data).map Char.toLower

/-- Embeds `is_subpath` from `trace_xml_to_config.py`. -/
def is_subpath (child parent : String) : Bool :=
  subNorm child == subNorm parent || isPrefixCh (subNorm parent ++ ['\\']) (subNorm child)

/-- Length-ascending order used by `reduce_paths` (`sorted(..., key=len)`). -/
def lenRel (a b : String) : Prop := a.length ≤ b.length

instance : DecidableRel lenRel := fun _ _ => Nat.decLe _ _

instance : IsTotal String lenRel := ⟨fun _ _ => Nat.le_total _ _⟩

instance : IsTrans String lenRel := ⟨fun _ _ _ => Nat.le_trans⟩

/-- Loop body of `reduce_paths`: keep `p` unless it is a sub-path of an
already-kept path. -/
def keepStep (res : List String) (p : String) : List String :=
  if res.any (fun existing => is_subpath p existing) then res else res ++ [p]

/-- Embeds `reduce_paths` from `trace_xml_to_config.py`:
`sorted(set(paths), key=len)` scanned with `keepStep`. Python's set-iteration
order is unspecified; the set is modelled as `List.dedup` of the input
sequence, and the sort is a stable insertion sort like Python's. -/
def reduce_paths (paths : List String) : List String :=
  (List.insertionSort lenRel paths.dedup).foldl keepStep []

theorem is_subpath_self (p : String) : is_subpath p p = true := by
  simp [is_subpath]

theorem foldl_keepStep_mem :
    ∀ (l : List String) (acc : List String) (x : String),
      x ∈ l.foldl keepStep acc → x ∈ acc ∨ x ∈ l := by
  intro l
  induction l with
  | nil => intro acc x hx; exact Or.inl hx
  | cons p t ih =>
    intro acc x hx
    rw [List.foldl_cons] at hx
    rcases ih (keepStep acc p) x hx with h | h
    · rw [keepStep] at h
      by_cases hc : acc.any (fun existing => is_subpath p existing) = true
      · rw [if_pos hc] at h; exact Or.inl h
      · rw [if_neg hc] at h
        rcases List.mem_append.mp h with h' | h'
        · exact Or.inl h'
        · simp at h'; exact Or.inr (by simp [h'])
    · exact Or.inr (List.mem_cons_of_mem _ h)

theorem foldl_keepStep_grow :
    ∀ (l : List String) (acc : List String) (x : String),
      x ∈ acc → x ∈ l.foldl keepStep acc := by
  intro l
  induction l with
  | nil => intro acc x hx; exact hx
  | cons p t ih =>
    intro acc x hx
    rw [List.foldl_cons]
    apply ih
    rw [keepStep]
    by_cases hc : acc.any (fun existing => is_subpath p existing) = true
    · rw [if_pos hc]; exact hx
    · rw [if_neg hc]; exact List.mem_append_left _ hx

theorem foldl_keepStep_covered :
    ∀ (l : List String) (acc : List String) (p : String), p ∈ l →
      ∃ r ∈ l.foldl keepStep acc, is_subpath p r = true := by
  intro l
  induction l with
  | nil => intro acc p hp; simp at hp
  | cons q t ih =>
    intro acc p hp
    rw [List.foldl_cons]
    rcases List.mem_cons.mp hp with rfl | hp'
    · by_cases hc : acc.any (fun existing => is_subpath p existing) = true
      · obtain ⟨e, he, hsub⟩ := List.any_eq_true.mp hc
        refine ⟨e, foldl_keepStep_grow t _ e ?_, hsub⟩
        rw [keepStep, if_pos hc]; exact he
      · refine ⟨p, foldl_keepStep_grow t _ p ?_, is_subpath_self p⟩
        rw [keepStep, if_neg hc]
        exact List.mem_append_right _ (by simp)
    · exact ih _ p hp'

/-- Invariant relation maintained along the kept list: a later element is
never a sub-path of an earlier one, and lengths ascend. -/
def keptRel (a b : String) : Prop := is_subpath b a = false ∧ a.length ≤ b.length

theorem foldl_keepStep_pairwise :
    ∀ (l : List String) (acc : List String),
      acc.Pairwise keptRel →
      (∀ a ∈ acc, ∀ p ∈ l, a.length ≤ p.length) →
      l.Pairwise lenRel →
      (l.foldl keepStep acc).Pairwise keptRel := by
  intro l
  induction l with
  | nil => intro acc hacc _ _; exact hacc
  | cons p t ih =>
    intro acc hacc hlen hsor
    rw [List.foldl_cons]
    have hsor_tail : t.Pairwise lenRel := (List.pairwise_cons.mp hsor).2
    have hsor_head : ∀ q ∈ t, lenRel p q := (List.pairwise_cons.mp hsor).1
    by_cases hc : acc.any (fun existing => is_subpath p existing) = true
    · rw [keepStep, if_pos hc]
      exact ih acc hacc (fun a ha q hq => hlen a ha q (List.mem_cons_of_mem _ hq)) hsor_tail
    · rw [keepStep, if_neg hc]
      apply ih
      · rw [List.pairwise_append]
        refine ⟨hacc, by simp, ?_⟩
        intro a ha b hb
        simp only [List.mem_singleton] at hb
        refine ⟨?_, ?_⟩
        · rw [hb]
          exact Bool.eq_false_iff.mpr ((List.any_eq_false.mp (Bool.eq_false_iff.mpr hc)) a ha)
        · rw [hb]
          exact hlen a ha p (List.mem_cons_self _ _)
      · intro a ha q hq
        rcases List.mem_append.mp ha with h | h
        · exact hlen a h q (List.mem_cons_of_mem _ hq)
        · simp only [List.mem_singleton] at h
          subst h
          exact hsor_head q hq
      · exact hsor_tail

theorem subNorm_length_of_no_trailing {x : String}
    (h : x.data.getLast? ≠ some '\\') : (subNorm x).length = x.length := by
  rw [subNorm, rdropWhile_noop, List.length_map]
  · rfl
  · intro c hc
    simp only [beq_eq_false_iff_ne, ne_eq]
    intro hcc
    subst hcc
    exact h hc

/-- C5 (amended): for input paths with no trailing separator, the reduced set
is (a) a subset of the input, (b) free of mutual sub-path pairs, and (c) a
covering set: every input path is a sub-path of (or equal to) a kept path. -/
theorem reduce_paths_spec (paths : List String)
    (hbs : ∀ p ∈ paths, p.data.getLast? ≠ some '\\') :
    (∀ r ∈ reduce_paths paths, r ∈ paths) ∧
    (reduce_paths paths).Pairwise
      (fun a b => is_subpath a b = false ∧ is_subpath b a = false) ∧
    (∀ p ∈ paths, ∃ r ∈ reduce_paths paths, is_subpath p r = true) := by
  have hmem : ∀ r ∈ reduce_paths paths, r ∈ paths := by
    intro r hr
    rcases foldl_keepStep_mem _ _ r hr with h | h
    · simp at h
    · exact List.mem_dedup.mp ((List.mem_insertionSort lenRel).mp h)
  refine ⟨hmem, ?_, ?_⟩
  · have hpw : (reduce_paths paths).Pairwise keptRel := by
      apply foldl_keepStep_pairwise
      · exact List.Pairwise.nil
      · intro a ha; simp at ha
      · exact List.sorted_insertionSort lenRel paths.dedup
    apply hpw.imp_of_mem
    intro a b ha hb hrel
    have hlena : (subNorm a).length = a.length :=
      subNorm_length_of_no_trailing (hbs a (hmem a ha))
    have hlenb : (subNorm b).length = b.length :=
      subNorm_length_of_no_trailing (hbs b (hmem b hb))
    refine ⟨?_, hrel.1⟩
    cases hsub : is_subpath a b with
    | false => rfl
    | true =>
      exfalso
      rw [is_subpath, Bool.or_eq_true] at hsub
      rcases hsub with heq | hpre
      · have : subNorm a = subNorm b := by simpa using heq
        have : is_subpath b a = true := by
          rw [is_subpath, Bool.or_eq_true]
          left
          simp [this]
        rw [hrel.1] at this
        exact Bool.false_ne_true this
      · have hp : subNorm b ++ ['\\'] <+: subNorm a := (isPrefixCh_iff _ _).mp hpre
        have hlen1 := hp.length_le
        rw [List.length_append, List.length_singleton, hlena, hlenb] at hlen1
        have hlen2 : a.length ≤ b.length := hrel.2
        omega
  · intro p hp
    apply foldl_keepStep_covered
    rw [List.mem_insertionSort lenRel]
    exact List.mem_dedup.mpr hp

/-- Witness for the amended C5 at concrete paths. -/
theorem reduce_paths_spec_witness :
    (∀ r ∈ reduce_paths ["C:\\A\\B", "C:\\A", "D:\\x"],
        r ∈ ["C:\\A\\B", "C:\\A", "D:\\x"]) ∧
    (reduce_paths ["C:\\A\\B", "C:\\A", "D:\\x"]).Pairwise
      (fun a b => is_subpath a b = false ∧ is_subpath b a = false) ∧
    (∀ p ∈ ["C:\\A\\B", "C:\\A", "D:\\x"],
        ∃ r ∈ reduce_paths ["C:\\A\\B", "C:\\A", "D:\\x"], is_subpath p r = true) :=
  reduce_paths_spec ["C:\\A\\B", "C:\\A", "D:\\x"] (by decide)

/-- C5 counterexample: on the normalized input set with members `a\b` and
`a\\\` (the second carrying trailing separators), the reduction keeps both,
yet the first is a sub-path of the second, refuting part (b) of the claim. -/
theorem reduce_paths_counterexample :
    normalize_path "a\\b" = "a\\b" ∧
    normalize_path "a\\\\\\" = "a\\\\\\" ∧
    reduce_paths ["a\\b", "a\\\\\\"] = ["a\\b", "a\\\\\\"] ∧
    is_subpath "a\\b" "a\\\\\\" = true ∧
    ("a\\b" : String) ≠ "a\\\\\\" := by
  refine ⟨by decide, by decide, by decide, by decide, by decide⟩

/-- Category a value is routed to by the shape rules in `collect_paths`. -/
inductive PathCategory where
  | registryKey : PathCategory
  | scheduledTask : PathCategory
  | filePath : PathCategory
deriving DecidableEq

/-- Registry shape rule: `norm.upper().startswith("HK")`. -/
def regCond (norm : String) : Bool :=
  startsWithStr (toUpperStr norm) "HK"

/-- Scheduled-task shape rule:
`norm.startswith("\\") and not norm[1:].startswith("\\")`. -/
def taskShapeCond (norm : String) : Bool :=
  startsWithStr norm "\\" && !(startsWithStr (String.mk (norm.data.drop 1)) "\\")

/-- File-path shape rule: `":" in norm or norm.startswith("\\\\")`. -/
def fileShapeCond (norm : String) : Bool :=
  norm.data.contains ':' || startsWithStr norm "\\\\"

/-- Embeds the `if/elif/elif` classification chain of `collect_paths` applied
to one extracted attribute value; `none` reproduces the chain having no final
`else` branch (such a value is dropped). -/
def classifyValue (value : String) : Option PathCategory :=
  let norm := normalize_path value
  if regCond norm then some PathCategory.registryKey
  else if taskShapeCond norm then some PathCategory.scheduledTask
  else if fileShapeCond norm then some PathCategory.filePath
  else none

/-- C4 (amended): the classification chain is deterministic and assigns at
most one category, with registry taking precedence over task shape, which
takes precedence over file shape; values matching none of the shape rules are
assigned to no category, so classification is not total. -/
theorem classifyValue_characterization (v : String) :
    (classifyValue v = some PathCategory.registryKey ↔
      regCond (normalize_path v) = true) ∧
    (classifyValue v = some PathCategory.scheduledTask ↔
      (regCond (normalize_path v) = false ∧ taskShapeCond (normalize_path v) = true)) ∧
    (classifyValue v = some PathCategory.filePath ↔
      (regCond (normalize_path v) = false ∧ taskShapeCond (normalize_path v) = false ∧
        fileShapeCond (normalize_path v) = true)) ∧
    (classifyValue v = none ↔
      (regCond (normalize_path v) = false ∧ taskShapeCond (normalize_path v) = false ∧
        fileShapeCond (normalize_path v) = false)) := by
  cases hr : regCond (normalize_path v) <;>
    cases ht : taskShapeCond (normalize_path v) <;>
    cases hf : fileShapeCond (normalize_path v) <;>
    simp [classifyValue, hr, ht, hf]

/-- C4 counterexample: the string `abc` (its own normal form) matches none of
the three shape rules and is assigned to no category, refuting totality. -/
theorem classifyValue_not_total :
    normalize_path "abc" = "abc" ∧ classifyValue "abc" = none := by
  refine ⟨by decide, by decide⟩

/-- Node of the parsed trace document: a tag and its attribute dictionary
(keys unique, first binding wins as in a dict). -/
structure Element where
  tag : String
  attrs : List (String × String)
deriving DecidableEq

/-- Python `elem.attrib.get(key)`. -/
def attrGet (e : Element) (key : String) : Option String :=
  (e.attrs.find? (fun kv => kv.1 == key)).map (fun kv => kv.2)

/-- Attribute names scanned by `collect_paths`, in source order. -/
def pathAttrNames : List String :=
  ["Path", "path", "Location", "location", "Target", "target"]

/-- Values of the scanned path attributes of one element, skipping falsy
(absent or empty) values, as `if not value: continue` does. -/
def elemPathValues (e : Element) : List String :=
  pathAttrNames.filterMap (fun a =>
    match attrGet e a with
    | some v => if v == "" then none else some v
    | none => none)

/-- Python `elem.attrib.get("Name") or elem.attrib.get("name")` reduced by
the truthiness guard: `some nv` exactly when the resulting value is truthy. -/
def nameValue (e : Element) : Option String :=
  let combined :=
    match attrGet e "Name" with
    | some v => if v == "" then attrGet e "name" else some v
    | none => attrGet e "name"
  match combined with
  | some v => if v == "" then none else some v
  | none => none

/-- Python `elem.tag.lower().startswith("service")`. -/
def serviceTagged (e : Element) : Bool :=
  startsWithStr (toLowerStr e.tag) "service"

/-- Python `elem.tag.lower().startswith("task")`. -/
def taskTagged (e : Element) : Bool :=
  startsWithStr (toLowerStr e.tag) "task"

/-- The four collections built by `collect_paths`. Python uses sets; they are
modelled as duplicate-free lists grown by `setInsert`. -/
structure CollectAcc where
  files : List String
  registry : List String
  services : List String
  tasks : List String
deriving DecidableEq

/-- Python `set.add`: insert when not already present. -/
def setInsert (l : List String) (x : String) : List String :=
  if x ∈ l then l else x :: l

/-- One pass of the `if/elif/elif` chain of `collect_paths` for an attribute
value, inserting its normal form into the matching collection. -/
def classifyInsert (acc : CollectAcc) (value : String) : CollectAcc :=
  let norm := normalize_path value
  match classifyValue value with
  | some PathCategory.registryKey =>
      ⟨acc.files, setInsert acc.registry norm, acc.services, acc.tasks⟩
  | some PathCategory.scheduledTask =>
      ⟨acc.files, acc.registry, acc.services, setInsert acc.tasks norm⟩
  | some PathCategory.filePath =>
      ⟨setInsert acc.files norm, acc.registry, acc.services, acc.tasks⟩
  | none => acc

/-- Tag-driven part of `collect_paths`: a truthy name on a `service*` tag
joins the services, on a `task*` tag (checked second) joins the tasks. -/
def nameStep (acc : CollectAcc) (e : Element) : CollectAcc :=
  match nameValue e with
  | none => acc
  | some nv =>
    let acc1 :=
      if serviceTagged e then
        ⟨acc.files, acc.registry, setInsert acc.services (pyStrip nv), acc.tasks⟩
      else acc
    if taskTagged e then
      ⟨acc1.files, acc1.registry, acc1.services, setInsert acc1.tasks (pyStrip nv)⟩
    else acc1

/-- Processing of one element of the document walk. -/
def elemStep (acc : CollectAcc) (e : Element) : CollectAcc :=
  nameStep ((elemPathValues e).foldl classifyInsert acc) e

/-- Embeds `collect_paths` from `trace_xml_to_config.py`; the document walk
`root.iter()` is modelled as a list of elements in document order. -/
def collect_paths (elems : List Element) : CollectAcc :=
  elems.foldl elemStep ⟨[], [], [], []⟩

/-- Environment-derived root lists (`PROGRAM_ROOTS`, `DATA_ROOTS`), passed
explicitly since they are read from the process environment at load time. -/
structure Roots where
  programRoots : List String
  dataRoots : List String

/-- Embeds `categorize_directory`: under a program root it is `program`,
otherwise `data` (both remaining source branches return `data`). -/
def categorize_directory (roots : Roots) (path : String) : String :=
  let lower := toLowerStr path
  if roots.programRoots.any (fun r => startsWithStr lower (toLowerStr r)) then "program"
  else if containsStr lower "\\appdata\\" || containsStr lower "\\programdata\\" then "data"
  else "data"

/-- Embeds `is_within_known_root` (the `str(Path(...))` separator
normalization of pathlib is not modelled; inputs are already normalized). -/
def is_within_known_root (roots : Roots) (path : String) : Bool :=
  let lower := toLowerStr path
  (roots.programRoots ++ roots.dataRoots).any (fun r => startsWithStr lower (toLowerStr r)) ||
    containsStr lower "\\appdata\\" || containsStr lower "\\programdata\\"

/-- Split a character list on a separator character. -/
def splitOnChar (c : Char) : List Char → List (List Char)
  | [] => [[]]
  | x :: xs =>
    let r := splitOnChar c xs
    if x == c then [] :: r
    else
      match r with
      | h :: t => (x :: h) :: t
      | [] => [[x]]

/-- Join character-list segments with a separator character. -/
def joinWithChar (c : Char) : List (List Char) → List Char
  | [] => []
  | [x] => x
  | x :: xs => x ++ c :: joinWithChar c xs

/-- Nonempty backslash-separated components of a path string. -/
def pathComponents (s : String) : List String :=
  ((splitOnChar '\\' s.data).map String.mk).filter (fun comp => !(comp == ""))

/-- Python `Path(s).name` on Windows-style strings: the final component, with
a leading drive component (`C:`) never counting as a name. -/
def pyPathName (s : String) : String :=
  let comps := pathComponents s
  let comps :=
    match comps with
    | c :: rest => if c.data.getLast? == some ':' then rest else c :: rest
    | [] => []
  match comps.getLast? with
  | some n => n
  | none => ""

/-- Python `Path(s).parent` on Windows-style strings: drop the last
backslash-separated component (pathlib collapsing of repeated or trailing
separators is not modelled; callers pass already-normalized paths). -/
def pyPathParent (s : String) : String :=
  let parts := splitOnChar '\\' s.data
  if parts.length ≤ 1 then "." else String.mk (joinWithChar '\\' parts.dropLast)

/-- Python `bool(Path(s).suffix)`: the final component has a dot at an index
`i` with `0 < i < len(name) - 1` (CPython's `rfind`-based rule). -/
def pySuffixNonempty (s : String) : Bool :=
  let name := (pyPathName s).data
  match name.reverse.findIdx? (fun c => c == '.') with
  | some j =>
    let i := name.length - 1 - j
    decide (0 < i) && decide (i < name.length - 1)
  | none => false

/-- Python `s.replace(":", "")`. -/
def removeColons (s : String) : String :=
  String.mk (s.data.filter (fun c => !(c == ':')))

/-- Directory entry emitted by the classifier (`kind` holds the JSON `type`
field). -/
structure DirEntryOut where
  path : String
  target : String
  kind : String
deriving DecidableEq

/-- Order on map entries used for `sorted(directory_map.keys(), key=len)`. -/
def keyLenRel (a b : String × DirEntryOut) : Prop := a.1.length ≤ b.1.length

instance : DecidableRel keyLenRel := fun _ _ => Nat.decLe _ _

/-- Embeds `pick_directories_and_files` from `trace_xml_to_config.py`; the
insertion-ordered dict is an association list, and the final key sort by
length is the stable sort over insertion order. -/
def pick_directories_and_files (roots : Roots) (paths : List String) :
    List DirEntryOut × List String :=
  let step := fun (acc : List (String × DirEntryOut) × List String) (raw_path : String) =>
    if is_within_known_root roots raw_path then
      let candidate :=
        if pySuffixNonempty raw_path && !(raw_path.data.getLast? == some '\\') then
          pyPathParent raw_path
        else raw_path
      if acc.1.any (fun kv => kv.1 == candidate) then acc
      else
        (acc.1 ++ [(candidate,
          ⟨candidate,
            (if pyPathName candidate == "" then removeColons candidate
             else pyPathName candidate),
            categorize_directory roots candidate⟩)], acc.2)
    else (acc.1, acc.2 ++ [raw_path])
  let res := (reduce_paths paths).foldl step ([], [])
  ((List.insertionSort keyLenRel res.1).map (fun kv => kv.2), res.2)

/-- Order used for `sorted(...)` on the three name collections. -/
def strLeRel (a b : String) : Prop := strLe a b = true

instance : DecidableRel strLeRel := fun a b => instDecidableEqBool (strLe a b) true

instance : IsTotal String strLeRel := ⟨fun a b => lexLe_total a.data b.data⟩

instance : IsTrans String strLeRel := ⟨fun a b c => lexLe_trans a.data b.data c.data⟩

instance : IsAntisymm String strLeRel :=
  ⟨fun a b hab hba => by
    cases a with
    | mk da =>
      cases b with
      | mk db => exact congrArg String.mk (lexLe_antisymm da db hab hba)⟩

/-- Python `sorted(xs)` on strings. -/
def sortStrings (l : List String) : List String :=
  List.insertionSort strLeRel l

/-- Manifest record produced by the classifier. -/
structure ConfigOut where
  app_name : String
  directories : List DirEntryOut
  files : List String
  registry_keys : List String
  services : List String
  scheduled_tasks : List String
  shortcuts : List String
deriving DecidableEq

/-- Embeds `build_config` from `trace_xml_to_config.py`; XML parsing is
modelled by receiving the element list, and `xml_path.stem` as `stem`. -/
def build_config (roots : Roots) (elems : List Element) (app_name : Option String)
    (stem : String) : ConfigOut :=
  let acc := collect_paths elems
  let df := pick_directories_and_files roots acc.files
  ⟨(match app_name with
    | some s => if s == "" then stem else s
    | none => stem),
   df.1, df.2,
   sortStrings acc.registry,
   sortStrings acc.services,
   sortStrings acc.tasks,
   []⟩

theorem setInsert_mem (l : List String) (y x : String) :
    x ∈ setInsert l y ↔ x = y ∨ x ∈ l := by
  rw [setInsert]
  by_cases h : y ∈ l
  · rw [if_pos h]
    constructor
    · exact Or.inr
    · rintro (rfl | hx)
      · exact h
      · exact hx
  · rw [if_neg h]
    exact List.mem_cons

theorem setInsert_nodup {l : List String} (y : String) (h : l.Nodup) :
    (setInsert l y).Nodup := by
  rw [setInsert]
  by_cases hy : y ∈ l
  · rw [if_pos hy]; exact h
  · rw [if_neg hy]; exact List.nodup_cons.mpr ⟨hy, h⟩

/-- All four collections of an accumulator are duplicate-free. -/
def AccNodup (acc : CollectAcc) : Prop :=
  acc.files.Nodup ∧ acc.registry.Nodup ∧ acc.services.Nodup ∧ acc.tasks.Nodup

theorem classifyInsert_nodup {acc : CollectAcc} (v : String) (h : AccNodup acc) :
    AccNodup (classifyInsert acc v) := by
  obtain ⟨h1, h2, h3, h4⟩ := h
  rw [classifyInsert]
  cases classifyValue v with
  | none => exact ⟨h1, h2, h3, h4⟩
  | some cat =>
    cases cat
    · exact ⟨h1, setInsert_nodup _ h2, h3, h4⟩
    · exact ⟨h1, h2, h3, setInsert_nodup _ h4⟩
    · exact ⟨setInsert_nodup _ h1, h2, h3, h4⟩

theorem foldl_classifyInsert_nodup :
    ∀ (vs : List String) (acc : CollectAcc), AccNodup acc →
      AccNodup (vs.foldl classifyInsert acc) := by
  intro vs
  induction vs with
  | nil => intro acc h; exact h
  | cons v t ih => intro acc h; exact ih _ (classifyInsert_nodup v h)

theorem nameStep_nodup {acc : CollectAcc} (e : Element) (h : AccNodup acc) :
    AccNodup (nameStep acc e) := by
  obtain ⟨h1, h2, h3, h4⟩ := h
  rw [nameStep]
  cases nameValue e with
  | none => exact ⟨h1, h2, h3, h4⟩
  | some nv =>
    by_cases hs : serviceTagged e = true <;> by_cases ht : taskTagged e = true <;>
      simp only [hs, ht, if_pos, if_neg, if_true, if_false, Bool.false_eq_true] <;>
      first
        | exact ⟨h1, h2, setInsert_nodup _ h3, setInsert_nodup _ h4⟩
        | exact ⟨h1, h2, setInsert_nodup _ h3, h4⟩
        | exact ⟨h1, h2, h3, setInsert_nodup _ h4⟩
        | exact ⟨h1, h2, h3, h4⟩

theorem collect_paths_nodup (elems : List Element) : AccNodup (collect_paths elems) := by
  rw [collect_paths]
  have : ∀ (es : List Element) (acc : CollectAcc), AccNodup acc →
      AccNodup (es.foldl elemStep acc) := by
    intro es
    induction es with
    | nil => intro acc h; exact h
    | cons e t ih =>
      intro acc h
      exact ih _ (nameStep_nodup e (foldl_classifyInsert_nodup _ acc h))
  exact this _ _ ⟨List.nodup_nil, List.nodup_nil, List.nodup_nil, List.nodup_nil⟩

theorem sortStrings_mem (l : List String) (x : String) :
    x ∈ sortStrings l ↔ x ∈ l :=
  List.mem_insertionSort strLeRel

theorem sortStrings_nodup {l : List String} (h : l.Nodup) : (sortStrings l).Nodup :=
  (List.perm_insertionSort strLeRel l).nodup_iff.mpr h

theorem sortStrings_sorted (l : List String) : (sortStrings l).Pairwise strLeRel :=
  List.sorted_insertionSort strLeRel l

/-- C8 (amended): the registry-key, service and scheduled-task collections of
a classified manifest are deduplicated exactly (case-sensitively): no entry
appears twice, though entries differing only in letter case may coexist. -/
theorem build_config_collections_nodup (roots : Roots) (elems : List Element)
    (an : Option String) (stem : String) :
    (build_config roots elems an stem).registry_keys.Nodup ∧
    (build_config roots elems an stem).services.Nodup ∧
    (build_config roots elems an stem).scheduled_tasks.Nodup := by
  obtain ⟨-, h2, h3, h4⟩ := collect_paths_nodup elems
  exact ⟨sortStrings_nodup h2, sortStrings_nodup h3, sortStrings_nodup h4⟩

/-- C8 counterexample: two registry keys differing only in letter case both
survive into the manifest record, so the dedup is not case-insensitive. -/
theorem build_config_case_dedup_counterexample :
    (build_config ⟨["C:\\Program Files"], ["C:\\ProgramData"]⟩
        [⟨"Item", [("Path", "HKCU\\Foo")]⟩, ⟨"Item", [("Path", "HKCU\\FOO")]⟩]
        none "trace").registry_keys = ["HKCU\\FOO", "HKCU\\Foo"] ∧
    toLowerStr "HKCU\\FOO" = toLowerStr "HKCU\\Foo" ∧
    ("HKCU\\FOO" : String) ≠ "HKCU\\Foo" := by
  refine ⟨by decide, by decide, by decide⟩

/-- Normal form contributed to category `cat` by attribute value `v`, when
the chain routes `v` there. -/
def catContrib (cat : PathCategory) (v : String) : Option String :=
  if classifyValue v = some cat then some (normalize_path v) else none

/-- Service name contributed by an element through its tag and name. -/
def svcNameContrib (e : Element) : Option String :=
  match nameValue e with
  | some nv => if serviceTagged e then some (pyStrip nv) else none
  | none => none

/-- Task name contributed by an element through its tag and name. -/
def taskNameContrib (e : Element) : Option String :=
  match nameValue e with
  | some nv => if taskTagged e then some (pyStrip nv) else none
  | none => none

theorem classifyInsert_registry_mem (acc : CollectAcc) (v x : String) :
    x ∈ (classifyInsert acc v).registry ↔
      catContrib PathCategory.registryKey v = some x ∨ x ∈ acc.registry := by
  simp only [classifyInsert, catContrib]
  cases h : classifyValue v with
  | none => simp
  | some cat => cases cat <;> simp [setInsert_mem, eq_comm]

theorem classifyInsert_tasks_mem (acc : CollectAcc) (v x : String) :
    x ∈ (classifyInsert acc v).tasks ↔
      catContrib PathCategory.scheduledTask v = some x ∨ x ∈ acc.tasks := by
  simp only [classifyInsert, catContrib]
  cases h : classifyValue v with
  | none => simp
  | some cat => cases cat <;> simp [setInsert_mem, eq_comm]

theorem classifyInsert_services (acc : CollectAcc) (v : String) :
    (classifyInsert acc v).services = acc.services := by
  simp only [classifyInsert]
  cases h : classifyValue v with
  | none => rfl
  | some cat => cases cat <;> rfl

theorem foldl_classifyInsert_registry_mem :
    ∀ (vs : List String) (acc : CollectAcc) (x : String),
      x ∈ (vs.foldl classifyInsert acc).registry ↔
        (∃ v ∈ vs, catContrib PathCategory.registryKey v = some x) ∨ x ∈ acc.registry := by
  intro vs
  induction vs with
  | nil => intro acc x; simp
  | cons v t ih =>
    intro acc x
    rw [List.foldl_cons, ih, classifyInsert_registry_mem]
    simp only [List.mem_cons]
    constructor
    · rintro (⟨w, hw, hc⟩ | hc | hacc)
      · exact Or.inl ⟨w, Or.inr hw, hc⟩
      · exact Or.inl ⟨v, Or.inl rfl, hc⟩
      · exact Or.inr hacc
    · rintro (⟨w, (rfl | hw), hc⟩ | hacc)
      · exact Or.inr (Or.inl hc)
      · exact Or.inl ⟨w, hw, hc⟩
      · exact Or.inr (Or.inr hacc)

theorem foldl_classifyInsert_tasks_mem :
    ∀ (vs : List String) (acc : CollectAcc) (x : String),
      x ∈ (vs.foldl classifyInsert acc).tasks ↔
        (∃ v ∈ vs, catContrib PathCategory.scheduledTask v = some x) ∨ x ∈ acc.tasks := by
  intro vs
  induction vs with
  | nil => intro acc x; simp
  | cons v t ih =>
    intro acc x
    rw [List.foldl_cons, ih, classifyInsert_tasks_mem]
    simp only [List.mem_cons]
    constructor
    · rintro (⟨w, hw, hc⟩ | hc | hacc)
      · exact Or.inl ⟨w, Or.inr hw, hc⟩
      · exact Or.inl ⟨v, Or.inl rfl, hc⟩
      · exact Or.inr hacc
    · rintro (⟨w, (rfl | hw), hc⟩ | hacc)
      · exact Or.inr (Or.inl hc)
      · exact Or.inl ⟨w, hw, hc⟩
      · exact Or.inr (Or.inr hacc)

theorem foldl_classifyInsert_services :
    ∀ (vs : List String) (acc : CollectAcc),
      (vs.foldl classifyInsert acc).services = acc.services := by
  intro vs
  induction vs with
  | nil => intro acc; rfl
  | cons v t ih =>
    intro acc
    rw [List.foldl_cons, ih, classifyInsert_services]

theorem nameStep_registry (acc : CollectAcc) (e : Element) :
    (nameStep acc e).registry = acc.registry := by
  rw [nameStep]
  cases h : nameValue e with
  | none => rfl
  | some nv =>
    by_cases hs : serviceTagged e = true <;> by_cases ht : taskTagged e = true <;>
      simp [hs, ht]

theorem nameStep_services_mem (acc : CollectAcc) (e : Element) (x : String) :
    x ∈ (nameStep acc e).services ↔ svcNameContrib e = some x ∨ x ∈ acc.services := by
  rw [nameStep, svcNameContrib]
  cases h : nameValue e with
  | none => simp
  | some nv =>
    by_cases hs : serviceTagged e = true <;> by_cases ht : taskTagged e = true <;>
      simp [hs, ht, setInsert_mem, eq_comm]

theorem nameStep_tasks_mem (acc : CollectAcc) (e : Element) (x : String) :
    x ∈ (nameStep acc e).tasks ↔ taskNameContrib e = some x ∨ x ∈ acc.tasks := by
  rw [nameStep, taskNameContrib]
  cases h : nameValue e with
  | none => simp
  | some nv =>
    by_cases hs : serviceTagged e = true <;> by_cases ht : taskTagged e = true <;>
      simp [hs, ht, setInsert_mem, eq_comm]

theorem elemStep_registry_mem (acc : CollectAcc) (e : Element) (x : String) :
    x ∈ (elemStep acc e).registry ↔
      (∃ v ∈ elemPathValues e, catContrib PathCategory.registryKey v = some x) ∨
        x ∈ acc.registry := by
  rw [elemStep, nameStep_registry, foldl_classifyInsert_registry_mem]

theorem elemStep_services_mem (acc : CollectAcc) (e : Element) (x : String) :
    x ∈ (elemStep acc e).services ↔ svcNameContrib e = some x ∨ x ∈ acc.services := by
  rw [elemStep, nameStep_services_mem, foldl_classifyInsert_services]

theorem elemStep_tasks_mem (acc : CollectAcc) (e : Element) (x : String) :
    x ∈ (elemStep acc e).tasks ↔
      ((∃ v ∈ elemPathValues e, catContrib PathCategory.scheduledTask v = some x) ∨
        taskNameContrib e = some x) ∨ x ∈ acc.tasks := by
  rw [elemStep, nameStep_tasks_mem, foldl_classifyInsert_tasks_mem]
  constructor
  · rintro (h | h | h)
    · exact Or.inl (Or.inr h)
    · exact Or.inl (Or.inl h)
    · exact Or.inr h
  · rintro ((h | h) | h)
    · exact Or.inr (Or.inl h)
    · exact Or.inl h
    · exact Or.inr (Or.inr h)

/-- Everything element `e` can contribute to the registry collection. -/
def elemRegYields (e : Element) (x : String) : Prop :=
  ∃ v ∈ elemPathValues e, catContrib PathCategory.registryKey v = some x

/-- Everything element `e` can contribute to the services collection. -/
def elemSvcYields (e : Element) (x : String) : Prop :=
  svcNameContrib e = some x

/-- Everything element `e` can contribute to the tasks collection. -/
def elemTaskYields (e : Element) (x : String) : Prop :=
  (∃ v ∈ elemPathValues e, catContrib PathCategory.scheduledTask v = some x) ∨
    taskNameContrib e = some x

theorem collect_paths_registry_mem (elems : List Element) (x : String) :
    x ∈ (collect_paths elems).registry ↔ ∃ e ∈ elems, elemRegYields e x := by
  rw [collect_paths]
  have key : ∀ (es : List Element) (acc : CollectAcc),
      x ∈ (es.foldl elemStep acc).registry ↔
        (∃ e ∈ es, elemRegYields e x) ∨ x ∈ acc.registry := by
    intro es
    induction es with
    | nil => intro acc; simp
    | cons e t ih =>
      intro acc
      rw [List.foldl_cons, ih, elemStep_registry_mem]
      simp only [List.mem_cons, elemRegYields]
      constructor
      · rintro (⟨w, hw, hc⟩ | hc | hacc)
        · exact Or.inl ⟨w, Or.inr hw, hc⟩
        · exact Or.inl ⟨e, Or.inl rfl, hc⟩
        · exact Or.inr hacc
      · rintro (⟨w, (rfl | hw), hc⟩ | hacc)
        · exact Or.inr (Or.inl hc)
        · exact Or.inl ⟨w, hw, hc⟩
        · exact Or.inr (Or.inr hacc)
  rw [key]
  simp

theorem collect_paths_services_mem (elems : List Element) (x : String) :
    x ∈ (collect_paths elems).services ↔ ∃ e ∈ elems, elemSvcYields e x := by
  rw [collect_paths]
  have key : ∀ (es : List Element) (acc : CollectAcc),
      x ∈ (es.foldl elemStep acc).services ↔
        (∃ e ∈ es, elemSvcYields e x) ∨ x ∈ acc.services := by
    intro es
    induction es with
    | nil => intro acc; simp
    | cons e t ih =>
      intro acc
      rw [List.foldl_cons, ih, elemStep_services_mem]
      simp only [List.mem_cons, elemSvcYields]
      constructor
      · rintro (⟨w, hw, hc⟩ | hc | hacc)
        · exact Or.inl ⟨w, Or.inr hw, hc⟩
        · exact Or.inl ⟨e, Or.inl rfl, hc⟩
        · exact Or.inr hacc
      · rintro (⟨w, (rfl | hw), hc⟩ | hacc)
        · exact Or.inr (Or.inl hc)
        · exact Or.inl ⟨w, hw, hc⟩
        · exact Or.inr (Or.inr hacc)
  rw [key]
  simp

theorem collect_paths_tasks_mem (elems : List Element) (x : String) :
    x ∈ (collect_paths elems).tasks ↔ ∃ e ∈ elems, elemTaskYields e x := by
  rw [collect_paths]
  have key : ∀ (es : List Element) (acc : CollectAcc),
      x ∈ (es.foldl elemStep acc).tasks ↔
        (∃ e ∈ es, elemTaskYields e x) ∨ x ∈ acc.tasks := by
    intro es
    induction es with
    | nil => intro acc; simp
    | cons e t ih =>
      intro acc
      rw [List.foldl_cons, ih, elemStep_tasks_mem]
      simp only [List.mem_cons, elemTaskYields]
      constructor
      · rintro (⟨w, hw, hc⟩ | hc | hacc)
        · exact Or.inl ⟨w, Or.inr hw, hc⟩
        · exact Or.inl ⟨e, Or.inl rfl, hc⟩
        · exact Or.inr hacc
      · rintro (⟨w, (rfl | hw), hc⟩ | hacc)
        · exact Or.inr (Or.inl hc)
        · exact Or.inl ⟨w, hw, hc⟩
        · exact Or.inr (Or.inr hacc)
  rw [key]
  simp

theorem sorted_nodup_eq :
    ∀ (l₁ l₂ : List String),
      l₁.Pairwise strLeRel → l₂.Pairwise strLeRel → l₁.Nodup → l₂.Nodup →
      (∀ x, x ∈ l₁ ↔ x ∈ l₂) → l₁ = l₂ := by
  intro l₁
  induction l₁ with
  | nil =>
    intro l₂ _ _ _ _ hiff
    cases l₂ with
    | nil => rfl
    | cons b t₂ => exact absurd ((hiff b).mpr (List.mem_cons_self b t₂)) (List.not_mem_nil b)
  | cons a t₁ ih =>
    intro l₂ hs₁ hs₂ hn₁ hn₂ hiff
    cases l₂ with
    | nil => exact absurd ((hiff a).mp (List.mem_cons_self a t₁)) (List.not_mem_nil a)
    | cons b t₂ =>
      have hab : a = b := by
        rcases List.mem_cons.mp ((hiff a).mp (List.mem_cons_self a t₁)) with h | h
        · exact h
        · rcases List.mem_cons.mp ((hiff b).mpr (List.mem_cons_self b t₂)) with h' | h'
          · exact h'.symm
          · have h1 : strLeRel a b := (List.pairwise_cons.mp hs₁).1 b h'
            have h2 : strLeRel b a := (List.pairwise_cons.mp hs₂).1 a h
            exact antisymm h1 h2
      subst hab
      have ht : t₁ = t₂ := by
        apply ih t₂ (List.pairwise_cons.mp hs₁).2 (List.pairwise_cons.mp hs₂).2
          (List.nodup_cons.mp hn₁).2 (List.nodup_cons.mp hn₂).2
        intro x
        constructor
        · intro hx
          rcases List.mem_cons.mp ((hiff x).mp (List.mem_cons_of_mem a hx)) with h | h
          · subst h; exact absurd hx (List.nodup_cons.mp hn₁).1
          · exact h
        · intro hx
          rcases List.mem_cons.mp ((hiff x).mpr (List.mem_cons_of_mem a hx)) with h | h
          · subst h; exact absurd hx (List.nodup_cons.mp hn₂).1
          · exact h
      rw [ht]

/-- C10: the classified manifest has empty shortcuts; its registry-key,
service and scheduled-task collections are lexicographically sorted,
duplicate-free, and invariant under reordering the document walk. -/
theorem build_config_canonical (roots : Roots) (elems elems' : List Element)
    (an : Option String) (stem : String) (hperm : elems.Perm elems') :
    (build_config roots elems an stem).shortcuts = [] ∧
    ((build_config roots elems an stem).registry_keys.Pairwise strLeRel ∧
      (build_config roots elems an stem).services.Pairwise strLeRel ∧
      (build_config roots elems an stem).scheduled_tasks.Pairwise strLeRel) ∧
    ((build_config roots elems an stem).registry_keys.Nodup ∧
      (build_config roots elems an stem).services.Nodup ∧
      (build_config roots elems an stem).scheduled_tasks.Nodup) ∧
    ((build_config roots elems an stem).registry_keys =
        (build_config roots elems' an stem).registry_keys ∧
      (build_config roots elems an stem).services =
        (build_config roots elems' an stem).services ∧
      (build_config roots elems an stem).scheduled_tasks =
        (build_config roots elems' an stem).scheduled_tasks) := by
  have hreg : ∀ es : List Element,
      (build_config roots es an stem).registry_keys =
        sortStrings (collect_paths es).registry := fun _ => rfl
  have hsvc : ∀ es : List Element,
      (build_config roots es an stem).services =
        sortStrings (collect_paths es).services := fun _ => rfl
  have htsk : ∀ es : List Element,
      (build_config roots es an stem).scheduled_tasks =
        sortStrings (collect_paths es).tasks := fun _ => rfl
  obtain ⟨-, hn2, hn3, hn4⟩ := collect_paths_nodup elems
  obtain ⟨-, hn2', hn3', hn4'⟩ := collect_paths_nodup elems'
  refine ⟨rfl, ⟨?_, ?_, ?_⟩, ⟨?_, ?_, ?_⟩, ⟨?_, ?_, ?_⟩⟩
  · rw [hreg]; exact sortStrings_sorted _
  · rw [hsvc]; exact sortStrings_sorted _
  · rw [htsk]; exact sortStrings_sorted _
  · rw [hreg]; exact sortStrings_nodup hn2
  · rw [hsvc]; exact sortStrings_nodup hn3
  · rw [htsk]; exact sortStrings_nodup hn4
  · rw [hreg, hreg]
    apply sorted_nodup_eq _ _ (sortStrings_sorted _) (sortStrings_sorted _)
      (sortStrings_nodup hn2) (sortStrings_nodup hn2')
    intro x
    rw [sortStrings_mem, sortStrings_mem, collect_paths_registry_mem,
      collect_paths_registry_mem]
    constructor
    · rintro ⟨e, he, hy⟩; exact ⟨e, hperm.mem_iff.mp he, hy⟩
    · rintro ⟨e, he, hy⟩; exact ⟨e, hperm.mem_iff.mpr he, hy⟩
  · rw [hsvc, hsvc]
    apply sorted_nodup_eq _ _ (sortStrings_sorted _) (sortStrings_sorted _)
      (sortStrings_nodup hn3) (sortStrings_nodup hn3')
    intro x
    rw [sortStrings_mem, sortStrings_mem, collect_paths_services_mem,
      collect_paths_services_mem]
    constructor
    · rintro ⟨e, he, hy⟩; exact ⟨e, hperm.mem_iff.mp he, hy⟩
    · rintro ⟨e, he, hy⟩; exact ⟨e, hperm.mem_iff.mpr he, hy⟩
  · rw [htsk, htsk]
    apply sorted_nodup_eq _ _ (sortStrings_sorted _) (sortStrings_sorted _)
      (sortStrings_nodup hn4) (sortStrings_nodup hn4')
    intro x
    rw [sortStrings_mem, sortStrings_mem, collect_paths_tasks_mem,
      collect_paths_tasks_mem]
    constructor
    · rintro ⟨e, he, hy⟩; exact ⟨e, hperm.mem_iff.mp he, hy⟩
    · rintro ⟨e, he, hy⟩; exact ⟨e, hperm.mem_iff.mpr he, hy⟩

/-- Witness for C10: swapping two trace elements leaves the sorted registry
collection unchanged. -/
theorem build_config_canonical_witness :
    (build_config ⟨["C:\\Program Files"], ["C:\\ProgramData"]⟩
        [⟨"Item", [("Path", "HKCU\\B")]⟩, ⟨"Item", [("Path", "HKCU\\A")]⟩]
        none "t").registry_keys =
      (build_config ⟨["C:\\Program Files"], ["C:\\ProgramData"]⟩
        [⟨"Item", [("Path", "HKCU\\A")]⟩, ⟨"Item", [("Path", "HKCU\\B")]⟩]
        none "t").registry_keys :=
  (build_config_canonical ⟨["C:\\Program Files"], ["C:\\ProgramData"]⟩
      [⟨"Item", [("Path", "HKCU\\B")]⟩, ⟨"Item", [("Path", "HKCU\\A")]⟩]
      [⟨"Item", [("Path", "HKCU\\A")]⟩, ⟨"Item", [("Path", "HKCU\\B")]⟩]
      none "t"
      (List.Perm.swap _ _ _)).2.2.2.1

end TraceXmlToConfig

namespace PortablePackager

open PyStr

/-- Embeds `sanitize_name` from `portable_packager.py`: keep alphanumerics
(`str.isalnum`, ASCII fragment) and `-`, `_`, `.`; replace the rest by `_`. -/
def pyIsAlnum (c : Char) : Bool :=
  c.isAlpha || c.isDigit

def sanitize_name (value : String) : String :=
  String.mk (value.data.map (fun c =>
    if pyIsAlnum c || c == '-' || c == '_' || c == '.' then c else '_'))

/-- Characters that may appear in a sanitized name. -/
def allowedChar (c : Char) : Bool :=
  pyIsAlnum c || c == '-' || c == '_' || c == '.'

/-- Registry export file name: `f"{sanitize_name(key)}.reg"`. -/
def registryFileName (key : String) : String :=
  sanitize_name key ++ ".reg"

/-- Service capture file name: `f"{sanitize_name(service_name)}.txt"`. -/
def serviceFileName (serviceName : String) : String :=
  sanitize_name serviceName ++ ".txt"

/-- Python `task_name.strip("\\/")`. -/
def pyStripSlashes (s : String) : String :=
  String.mk (stripWhile (fun c => c == '\\' || c == '/') s.data)

/-- Task capture file name: `f"{sanitize_name(task_name.strip('\\/'))}.xml"`. -/
def taskFileName (taskName : String) : String :=
  sanitize_name (pyStripSlashes taskName) ++ ".xml"

theorem sanitize_chars_allowed (l : List Char) :
    ∀ c ∈ l.map (fun c =>
      if pyIsAlnum c || c == '-' || c == '_' || c == '.' then c else '_'),
      allowedChar c = true := by
  intro c hc
  obtain ⟨c₀, _, hfc⟩ := List.mem_map.mp hc
  by_cases h : (pyIsAlnum c₀ || c₀ == '-' || c₀ == '_' || c₀ == '.') = true
  · rw [← hfc, if_pos h]; exact h
  · rw [← hfc, if_neg h]; decide

theorem suffix_reg_allowed : ∀ c ∈ (".reg" : String).data, allowedChar c = true := by decide

theorem suffix_txt_allowed : ∀ c ∈ (".txt" : String).data, allowedChar c = true := by decide

theorem suffix_xml_allowed : ∀ c ∈ (".xml" : String).data, allowedChar c = true := by decide

/-- C9: `sanitize_name` preserves length and yields only alphanumerics or
`-`, `_`, `.`; the registry, service and task capture file names are built
from it (plus an allowed extension), so they contain no other characters. -/
theorem sanitize_name_spec (s : String) :
    (sanitize_name s).length = s.length ∧
    (∀ c ∈ (sanitize_name s).data, allowedChar c = true) ∧
    (∀ c ∈ (registryFileName s).data, allowedChar c = true) ∧
    (∀ c ∈ (serviceFileName s).data, allowedChar c = true) ∧
    (∀ c ∈ (taskFileName s).data, allowedChar c = true) := by
  refine ⟨?_, sanitize_chars_allowed s.data, ?_, ?_, ?_⟩
  · show (s.data.map _).length = s.data.length
    exact List.length_map _ _
  · intro c hc
    rcases List.mem_append.mp hc with h | h
    · exact sanitize_chars_allowed s.data c h
    · exact suffix_reg_allowed c h
  · intro c hc
    rcases List.mem_append.mp hc with h | h
    · exact sanitize_chars_allowed s.data c h
    · exact suffix_txt_allowed c h
  · intro c hc
    rcases List.mem_append.mp hc with h | h
    · exact sanitize_chars_allowed _ c h
    · exact suffix_xml_allowed c h

/-- Witness for C9 at a concrete name containing forbidden characters. -/
theorem sanitize_name_spec_witness :
    (sanitize_name "My App?.exe").length = 11 ∧ allowedChar '_' = true :=
  ⟨((sanitize_name_spec "My App?.exe").1).trans (by decide),
   (sanitize_name_spec "My App?.exe").2.1 '_' (by decide)⟩

/-- Directory entry dictionary of the manifest: `path` required, `target`
and `kind` (the JSON `type` key) optional. -/
structure PyDirEntry where
  path : String
  target : Option String
  kind : Option String
deriving DecidableEq

/-- Python `entry.get("target") or Path(entry["path"]).name`: the falsy
fallback used by the restore-template helpers. -/
def entryTargetOrName (e : PyDirEntry) : String :=
  match e.target with
  | some t => if t == "" then TraceXmlToConfig.pyPathName e.path else t
  | none => TraceXmlToConfig.pyPathName e.path

/-- First branch of `determine_destination_base`: `"localappdata" in lower or
"\\appdata\\local" in lower or "appdata\\local" in lower`. -/
def localMarker (lower : String) : Bool :=
  containsStr lower "localappdata" || containsStr lower "\\appdata\\local" ||
    containsStr lower "appdata\\local"

/-- Embeds `determine_destination_base` from `portable_packager.py`. -/
def determine_destination_base (e : PyDirEntry) : String :=
  let lower := toLowerStr (entryTargetOrName e)
  if localMarker lower then "%LocalAppData%"
  else if containsStr lower "appdata" then "%AppData%"
  else if e.kind == some "program" then "%ProgramFiles%"
  else "%ProgramData%"

/-- C7: first-match-wins precedence of the destination-base rules; in
particular a `program`-kind entry whose target carries a per-user-data
marker gets the per-user base, not the program-install base. -/
theorem determine_destination_base_precedence (e : PyDirEntry) :
    (localMarker (toLowerStr (entryTargetOrName e)) = true →
      determine_destination_base e = "%LocalAppData%") ∧
    (localMarker (toLowerStr (entryTargetOrName e)) = false →
      containsStr (toLowerStr (entryTargetOrName e)) "appdata" = true →
      determine_destination_base e = "%AppData%") ∧
    (localMarker (toLowerStr (entryTargetOrName e)) = false →
      containsStr (toLowerStr (entryTargetOrName e)) "appdata" = false →
      e.kind = some "program" →
      determine_destination_base e = "%ProgramFiles%") ∧
    (localMarker (toLowerStr (entryTargetOrName e)) = false →
      containsStr (toLowerStr (entryTargetOrName e)) "appdata" = false →
      e.kind ≠ some "program" →
      determine_destination_base e = "%ProgramData%") := by
  refine ⟨?_, ?_, ?_, ?_⟩
  · intro h1
    simp [determine_destination_base, h1]
  · intro h1 h2
    simp [determine_destination_base, h1, h2]
  · intro h1 h2 h3
    simp [determine_destination_base, h1, h2, h3]
  · intro h1 h2 h3
    simp [determine_destination_base, h1, h2, beq_eq_false_iff_ne.mpr h3]

/-- Witness for C7: the claim's distinguished case, a `program`-kind entry
whose target contains the per-user-data marker. -/
theorem determine_destination_base_witness :
    determine_destination_base ⟨"C:\\x", some "AppData\\Roaming\\Foo", some "program"⟩ =
      "%AppData%" :=
  (determine_destination_base_precedence
      ⟨"C:\\x", some "AppData\\Roaming\\Foo", some "program"⟩).2.1 (by decide) (by decide)

/-- Observable effect of one packaging step: a printed log line, a directory
creation, an external process execution, a file write, or a metadata-
preserving file copy (`shutil.copy2`). -/
inductive FsAction where
  | log : String → FsAction
  | mkdir : String → FsAction
  | exec : List String → FsAction
  | writeFile : String → FsAction
  | copyFile2 : String → String → FsAction
deriving DecidableEq

/-- Terminating error of a packaging run. -/
inductive PackError where
  | outputNotEmpty : String → PackError
  | missingPaths : String → List String → PackError
  | commandFailed : List String → Nat → PackError
deriving DecidableEq

/-- Host state read by the packager: which source paths exist, the state of
the output directory, and the exit code each external command would return. -/
structure World where
  existingPaths : List String
  outputDirExists : Bool
  outputDirNonEmpty : Bool
  execCode : List String → Nat

/-- Result of a step: the actions performed so far and the error that
aborted the run, if any. -/
abbrev StepOut : Type := List FsAction × Option PackError

/-- Sequencing: on error the remaining steps never run (`raise` unwinding). -/
def andThen (r : StepOut) (next : StepOut) : StepOut :=
  match r with
  | (acts, some e) => (acts, some e)
  | (acts, none) => (acts ++ next.1, next.2)

/-- A `for` loop over manifest entries, aborting on the first error. -/
def foldSteps {α : Type} (f : α → StepOut) (items : List α) : StepOut :=
  items.foldl (fun acc it => andThen acc (f it)) ([], none)

/-- Embeds `expand_path`: `os.path.expandvars`/`expanduser` and
`Path.resolve` are host-environment functions; the model keeps the
`strip()`-trimmed path, which is faithful for variable-free absolute paths. -/
def expand_path (s : String) : String :=
  pyStrip s

/-- Windows path join used for `Path / component`. -/
def joinPath (a b : String) : String :=
  a ++ "\\" ++ b

/-- Python `" ".join(cmd)`. -/
def joinSpace (cmd : List String) : String :=
  String.intercalate " " cmd

/-- Embeds `run_command`: log the invocation unconditionally, skip execution
on a dry run, and raise on a non-zero exit code. -/
def run_command (w : World) (cmd : List String) (dryRun : Bool) : StepOut :=
  if dryRun then ([FsAction.log ("[cmd] " ++ joinSpace cmd)], none)
  else
    ([FsAction.log ("[cmd] " ++ joinSpace cmd), FsAction.exec cmd],
     if w.execCode cmd ≠ 0 then some (PackError.commandFailed cmd (w.execCode cmd))
     else none)

/-- The robocopy invocation of `copy_directory`. -/
def robocopyCmd (source destination : String) : List String :=
  ["robocopy", source, destination, "/MIR", "/COPYALL", "/R:2", "/W:2", "/NFL",
   "/NDL", "/NP"]

/-- Embeds `copy_directory`: `destination.mkdir(parents=True, exist_ok=True)`
runs before the dry-run check; success codes are `range(0, 8)`. -/
def copy_directory (w : World) (source destination : String) (dryRun : Bool) : StepOut :=
  let pre := [FsAction.mkdir destination,
              FsAction.log ("[copy dir] " ++ source ++ " -> " ++ destination)]
  if dryRun then (pre, none)
  else
    (pre ++ [FsAction.exec (robocopyCmd source destination)],
     if w.execCode (robocopyCmd source destination) < 8 then none
     else some (PackError.commandFailed (robocopyCmd source destination)
       (w.execCode (robocopyCmd source destination))))

/-- Embeds `copy_file`: the parent mkdir also precedes the dry-run check. -/
def copy_file (source destination : String) (dryRun : Bool) : StepOut :=
  let pre := [FsAction.mkdir (TraceXmlToConfig.pyPathParent destination),
              FsAction.log ("[copy file] " ++ source ++ " -> " ++ destination)]
  if dryRun then (pre, none)
  else (pre ++ [FsAction.copyFile2 source destination], none)

/-- Embeds `export_registry`. -/
def export_registry (w : World) (key destination : String) (dryRun : Bool) : StepOut :=
  andThen ([FsAction.mkdir (TraceXmlToConfig.pyPathParent destination)], none)
    (run_command w ["reg", "export", key, destination, "/y"] dryRun)

/-- Embeds `capture_service`: the description query is a bare
`subprocess.run` (no log, failure tolerated) executed only on real runs. -/
def capture_service (w : World) (serviceName destinationDir : String)
    (dryRun : Bool) : StepOut :=
  let target := joinPath destinationDir (serviceFileName serviceName)
  andThen ([FsAction.mkdir destinationDir], none)
    (andThen (run_command w ["sc.exe", "qc", serviceName] dryRun)
      (if dryRun then ([], none)
       else ([FsAction.exec ["sc.exe", "qdescription", serviceName],
              FsAction.writeFile target], none)))

/-- Embeds `capture_scheduled_task`. -/
def capture_scheduled_task (w : World) (taskName destinationDir : String)
    (dryRun : Bool) : StepOut :=
  let target := joinPath destinationDir (taskFileName taskName)
  andThen ([FsAction.mkdir destinationDir], none)
    (andThen (run_command w ["schtasks", "/query", "/tn", taskName, "/xml"] dryRun)
      (if dryRun then ([], none) else ([FsAction.writeFile target], none)))

/-- Embeds `copy_shortcut`. -/
def copy_shortcut (source destinationDir : String) (dryRun : Bool) : StepOut :=
  andThen ([FsAction.mkdir destinationDir], none)
    (copy_file source (joinPath destinationDir (TraceXmlToConfig.pyPathName source)) dryRun)

/-- Embeds `create_manifest` (content abstracted to the write). -/
def create_manifest (outputDir : String) (dryRun : Bool) : StepOut :=
  let target := joinPath outputDir "manifest.json"
  if dryRun then ([FsAction.log ("[manifest] " ++ target)], none)
  else ([FsAction.log ("[manifest] " ++ target), FsAction.writeFile target], none)

/-- Embeds `write_restore_stub` (content abstracted to the write). -/
def write_restore_stub (outputDir : String) (dryRun : Bool) : StepOut :=
  let target := joinPath outputDir "Restore_Template.cmd"
  if dryRun then ([FsAction.log ("[restore stub] " ++ target)], none)
  else ([FsAction.log ("[restore stub] " ++ target), FsAction.writeFile target], none)

/-- Manifest after `config.get(...)` defaulting. Every modelled directory
entry carries its `path` key; an entry lacking it is outside the valid
domain (the capture loop would crash on it). -/
structure Config where
  app_name : String
  directories : List PyDirEntry
  files : List String
  registry_keys : List String
  services : List String
  scheduled_tasks : List String
  shortcuts : List String
deriving DecidableEq

/-- Embeds `validate_paths`: all missing paths of one call are aggregated
into a single error. -/
def validate_paths (w : World) (items : List String) (what : String) : StepOut :=
  let missing := (items.map expand_path).filter (fun p => !(decide (p ∈ w.existingPaths)))
  ([], if missing.isEmpty then none else some (PackError.missingPaths what missing))

/-- The `[info]` banner printed at the start of `main`. -/
def infoAction (cfg : Config) (out : String) : FsAction :=
  FsAction.log ("[info] Packaging \x27" ++ cfg.app_name ++ "\x27 into " ++ out)

/-- Directory-loop body of `main`: `entry.get("target", source.name)` is the
key-absence default (an empty target string is used as given), and the root
is `ProgramData` exactly for `type == "data"`. -/
def dirStep (w : World) (outputDir : String) (dryRun : Bool) (e : PyDirEntry) : StepOut :=
  let source := expand_path e.path
  let targetRel :=
    match e.target with
    | some t => t
    | none => TraceXmlToConfig.pyPathName source
  let targetRoot :=
    if e.kind == some "data" then joinPath outputDir "ProgramData"
    else joinPath outputDir "ProgramFiles"
  copy_directory w source (joinPath targetRoot targetRel) dryRun

/-- File-loop body of `main`. -/
def fileStep (outputDir : String) (dryRun : Bool) (f : String) : StepOut :=
  let source := expand_path f
  copy_file source
    (joinPath (joinPath outputDir "ProgramFiles") (TraceXmlToConfig.pyPathName source))
    dryRun

/-- Embeds `main` from `portable_packager.py` over an already-loaded config:
the occupancy check, output mkdir, three per-category validations, the six
capture loops, manifest and restore-stub writes, and the final banner. -/
def mainRun (w : World) (cfg : Config) (outputDir : String) (dryRun : Bool) : StepOut :=
  if !dryRun && w.outputDirExists && w.outputDirNonEmpty then
    ([infoAction cfg outputDir], some (PackError.outputNotEmpty outputDir))
  else
    andThen ([infoAction cfg outputDir, FsAction.mkdir outputDir], none)
    (andThen (validate_paths w (cfg.directories.map (fun e => e.path)) "directories")
    (andThen (validate_paths w cfg.files "files")
    (andThen (validate_paths w cfg.shortcuts "shortcuts")
    (andThen (foldSteps (fun e => dirStep w outputDir dryRun e) cfg.directories)
    (andThen (foldSteps (fun f => fileStep outputDir dryRun f) cfg.files)
    (andThen (foldSteps (fun k => export_registry w k
        (joinPath (joinPath outputDir "Registry") (registryFileName k)) dryRun)
      cfg.registry_keys)
    (andThen (foldSteps (fun s => capture_service w s (joinPath outputDir "Services") dryRun)
      cfg.services)
    (andThen (foldSteps (fun t => capture_scheduled_task w t (joinPath outputDir "Tasks") dryRun)
      cfg.scheduled_tasks)
    (andThen (foldSteps (fun sc => copy_shortcut (expand_path sc)
        (joinPath outputDir "Shortcuts") dryRun)
      cfg.shortcuts)
    (andThen (create_manifest outputDir dryRun)
    (andThen (write_restore_stub outputDir dryRun)
    ([FsAction.log "[done] Portable package created."], none))))))))))))

/-- Log action recognizer. -/
def isLog : FsAction → Bool
  | FsAction.log _ => true
  | _ => false

/-- Directory-creation action recognizer. -/
def isMkdir : FsAction → Bool
  | FsAction.mkdir _ => true
  | _ => false

/-- A step is harmless on a dry run: it errors out nowhere and performs only
logging and directory creation. -/
def DryOk (r : StepOut) : Prop :=
  r.2 = none ∧ ∀ a ∈ r.1, isLog a = true ∨ isMkdir a = true

theorem andThen_dryOk {r s : StepOut} (hr : DryOk r) (hs : DryOk s) :
    DryOk (andThen r s) := by
  obtain ⟨acts, err⟩ := r
  obtain ⟨h1, h2⟩ := hr
  simp only at h1
  subst h1
  refine ⟨hs.1, ?_⟩
  intro a ha
  rcases List.mem_append.mp ha with h | h
  · exact h2 a h
  · exact hs.2 a h

theorem foldSteps_dryOk {α : Type} (f : α → StepOut) (items : List α)
    (h : ∀ it ∈ items, DryOk (f it)) : DryOk (foldSteps f items) := by
  rw [foldSteps]
  have key : ∀ (l : List α) (acc : StepOut), (∀ it ∈ l, DryOk (f it)) → DryOk acc →
      DryOk (l.foldl (fun acc it => andThen acc (f it)) acc) := by
    intro l
    induction l with
    | nil => intro acc _ hacc; exact hacc
    | cons it t ih =>
      intro acc hl hacc
      rw [List.foldl_cons]
      exact ih _ (fun x hx => hl x (List.mem_cons_of_mem _ hx))
        (andThen_dryOk hacc (hl it (List.mem_cons_self _ _)))
  exact key items ([], none) h ⟨rfl, by intro a ha; simp at ha⟩

theorem dry_run_command (w : World) (cmd : List String) :
    DryOk (run_command w cmd true) := by
  refine ⟨rfl, ?_⟩
  intro a ha
  simp only [run_command, if_true] at ha
  simp at ha
  subst ha
  left; rfl

theorem dry_copy_directory (w : World) (s d : String) :
    DryOk (copy_directory w s d true) := by
  refine ⟨rfl, ?_⟩
  intro a ha
  simp only [copy_directory, if_true] at ha
  simp at ha
  rcases ha with rfl | rfl
  · right; rfl
  · left; rfl

theorem dry_copy_file (s d : String) : DryOk (copy_file s d true) := by
  refine ⟨rfl, ?_⟩
  intro a ha
  simp only [copy_file, if_true] at ha
  simp at ha
  rcases ha with rfl | rfl
  · right; rfl
  · left; rfl

theorem dryOk_mkdir (p : String) : DryOk ([FsAction.mkdir p], none) := by
  refine ⟨rfl, ?_⟩
  intro a ha
  simp at ha
  subst ha
  right; rfl

theorem dryOk_nil : DryOk ([], none) := by
  refine ⟨rfl, ?_⟩
  intro a ha
  simp at ha

theorem dry_export_registry (w : World) (k d : String) :
    DryOk (export_registry w k d true) :=
  andThen_dryOk (dryOk_mkdir _) (dry_run_command w _)

theorem dry_capture_service (w : World) (s d : String) :
    DryOk (capture_service w s d true) :=
  andThen_dryOk (dryOk_mkdir _) (andThen_dryOk (dry_run_command w _) dryOk_nil)

theorem dry_capture_scheduled_task (w : World) (t d : String) :
    DryOk (capture_scheduled_task w t d true) :=
  andThen_dryOk (dryOk_mkdir _) (andThen_dryOk (dry_run_command w _) dryOk_nil)

theorem dry_copy_shortcut (s d : String) : DryOk (copy_shortcut s d true) :=
  andThen_dryOk (dryOk_mkdir _) (dry_copy_file _ _)

theorem dry_create_manifest (out : String) : DryOk (create_manifest out true) := by
  refine ⟨rfl, ?_⟩
  intro a ha
  simp only [create_manifest, if_true] at ha
  simp at ha
  subst ha
  left; rfl

theorem dry_write_restore_stub (out : String) : DryOk (write_restore_stub out true) := by
  refine ⟨rfl, ?_⟩
  intro a ha
  simp only [write_restore_stub, if_true] at ha
  simp at ha
  subst ha
  left; rfl

/-- Paths of `items` that the world reports missing, in scan order. -/
def missingOf (w : World) (items : List String) : List String :=
  (items.map expand_path).filter (fun p => !(decide (p ∈ w.existingPaths)))

theorem validate_paths_ok (w : World) (items : List String) (what : String)
    (h : ∀ p ∈ items, expand_path p ∈ w.existingPaths) :
    validate_paths w items what = ([], none) := by
  simp only [validate_paths]
  have hnil : (items.map expand_path).filter (fun p => !(decide (p ∈ w.existingPaths))) = [] := by
    rw [List.filter_eq_nil_iff]
    intro p hp
    obtain ⟨q, hq, rfl⟩ := List.mem_map.mp hp
    simp [h q hq]
  rw [hnil]
  rfl

theorem validate_paths_err (w : World) (items : List String) (what : String)
    (h : missingOf w items ≠ []) :
    validate_paths w items what =
      ([], some (PackError.missingPaths what (missingOf w items))) := by
  simp only [validate_paths, missingOf]
  rw [if_neg]
  simp only [List.isEmpty_eq_true]
  exact h

theorem dry_dirStep (w : World) (out : String) (e : PyDirEntry) :
    DryOk (dirStep w out true e) :=
  dry_copy_directory w _ _

theorem dry_fileStep (out : String) (f : String) : DryOk (fileStep out true f) :=
  dry_copy_file _ _

/-- C1 (amended): a dry run against a manifest whose source paths all exist
terminates without error, performs no command execution, file write, or file
copy — every recorded action is a log line or a directory creation — and
produces a non-empty log; unlike the original claim, directory creations do
happen (the unconditional `mkdir` calls run before each dry-run check). -/
theorem dry_run_spec (w : World) (cfg : Config) (out : String)
    (hvalid : ∀ p ∈ cfg.directories.map (fun e => e.path) ++ cfg.files ++ cfg.shortcuts,
      expand_path p ∈ w.existingPaths) :
    (mainRun w cfg out true).2 = none ∧
    (∀ a ∈ (mainRun w cfg out true).1, isLog a = true ∨ isMkdir a = true) ∧
    (∃ a ∈ (mainRun w cfg out true).1, isLog a = true) := by
  have hdirs : ∀ p ∈ cfg.directories.map (fun e => e.path),
      expand_path p ∈ w.existingPaths :=
    fun p hp => hvalid p (List.mem_append_left _ (List.mem_append_left _ hp))
  have hfiles : ∀ p ∈ cfg.files, expand_path p ∈ w.existingPaths :=
    fun p hp => hvalid p (List.mem_append_left _ (List.mem_append_right _ hp))
  have hshort : ∀ p ∈ cfg.shortcuts, expand_path p ∈ w.existingPaths :=
    fun p hp => hvalid p (List.mem_append_right _ hp)
  have hmain : DryOk (mainRun w cfg out true) := by
    unfold mainRun
    simp only [Bool.not_true, Bool.false_and, Bool.false_eq_true, if_false]
    apply andThen_dryOk
    · refine ⟨rfl, ?_⟩
      intro a ha
      simp at ha
      rcases ha with rfl | rfl
      · left; rfl
      · right; rfl
    apply andThen_dryOk
    · rw [validate_paths_ok w _ _ hdirs]; exact dryOk_nil
    apply andThen_dryOk
    · rw [validate_paths_ok w _ _ hfiles]; exact dryOk_nil
    apply andThen_dryOk
    · rw [validate_paths_ok w _ _ hshort]; exact dryOk_nil
    apply andThen_dryOk
    · exact foldSteps_dryOk _ _ (fun e _ => dry_dirStep w out e)
    apply andThen_dryOk
    · exact foldSteps_dryOk _ _ (fun f _ => dry_fileStep out f)
    apply andThen_dryOk
    · exact foldSteps_dryOk _ _ (fun k _ => dry_export_registry w k _)
    apply andThen_dryOk
    · exact foldSteps_dryOk _ _ (fun s _ => dry_capture_service w s _)
    apply andThen_dryOk
    · exact foldSteps_dryOk _ _ (fun t _ => dry_capture_scheduled_task w t _)
    apply andThen_dryOk
    · exact foldSteps_dryOk _ _ (fun sc _ => dry_copy_shortcut _ _)
    apply andThen_dryOk
    · exact dry_create_manifest out
    apply andThen_dryOk
    · exact dry_write_restore_stub out
    refine ⟨rfl, ?_⟩
    intro a ha
    simp at ha
    subst ha
    left; rfl
  refine ⟨hmain.1, hmain.2, ?_⟩
  refine ⟨infoAction cfg out, ?_, rfl⟩
  show infoAction cfg out ∈ (mainRun w cfg out true).1
  unfold mainRun
  simp only [Bool.not_true, Bool.false_and, Bool.false_eq_true, if_false]
  exact List.mem_append_left _ (List.mem_cons_self _ _)

/-- Witness for the amended C1 at a concrete one-directory manifest. -/
theorem dry_run_spec_witness :
    (mainRun ⟨["C:\\src"], false, false, fun _ => 0⟩
        ⟨"App", [⟨"C:\\src", some "Src", some "program"⟩], [], [], [], [], []⟩
        "C:\\out" true).2 = none ∧
    (∀ a ∈ (mainRun ⟨["C:\\src"], false, false, fun _ => 0⟩
        ⟨"App", [⟨"C:\\src", some "Src", some "program"⟩], [], [], [], [], []⟩
        "C:\\out" true).1, isLog a = true ∨ isMkdir a = true) ∧
    (∃ a ∈ (mainRun ⟨["C:\\src"], false, false, fun _ => 0⟩
        ⟨"App", [⟨"C:\\src", some "Src", some "program"⟩], [], [], [], [], []⟩
        "C:\\out" true).1, isLog a = true) :=
  dry_run_spec ⟨["C:\\src"], false, false, fun _ => 0⟩
    ⟨"App", [⟨"C:\\src", some "Src", some "program"⟩], [], [], [], [], []⟩
    "C:\\out" (by decide)

/-- C1 counterexample: a dry run over the empty (vacuously valid) manifest
succeeds yet creates the output directory, refuting `no created
directories`. -/
theorem dry_run_counterexample :
    (mainRun ⟨[], false, false, fun _ => 0⟩ ⟨"App", [], [], [], [], [], []⟩
        "C:\\out" true).2 = none ∧
    FsAction.mkdir "C:\\out" ∈
      (mainRun ⟨[], false, false, fun _ => 0⟩ ⟨"App", [], [], [], [], [], []⟩
        "C:\\out" true).1 := by
  refine ⟨by decide, by decide⟩

/-- C2 (amended): validation aggregates all missing paths of one category
into a single error, but the categories are validated separately in order
(directories, files, shortcuts): when the directories category has missing
paths, the run terminates with an error naming exactly those paths —
missing files or shortcuts are not included — and the output directory has
already been created before validation ran. -/
theorem validation_first_category (w : World) (cfg : Config) (out : String) (d : Bool)
    (hocc : ¬(w.outputDirExists = true ∧ w.outputDirNonEmpty = true))
    (hmiss : missingOf w (cfg.directories.map (fun e => e.path)) ≠ []) :
    mainRun w cfg out d =
      ([infoAction cfg out, FsAction.mkdir out],
       some (PackError.missingPaths "directories"
         (missingOf w (cfg.directories.map (fun e => e.path))))) := by
  have hguard : (!d && w.outputDirExists && w.outputDirNonEmpty) = false := by
    cases d
    · cases hx : w.outputDirExists
      · simp [hx]
      · cases hy : w.outputDirNonEmpty
        · simp [hx, hy]
        · exact absurd ⟨hx, hy⟩ hocc
    · simp
  unfold mainRun
  rw [hguard]
  simp only [Bool.false_eq_true, if_false]
  rw [validate_paths_err w _ _ hmiss]
  simp [andThen]

/-- Witness for the amended C2. -/
theorem validation_first_category_witness :
    mainRun ⟨[], false, false, fun _ => 0⟩
        ⟨"App", [⟨"D:\\m1", none, none⟩], ["D:\\m2"], [], [], [], []⟩
        "C:\\out" false =
      ([infoAction ⟨"App", [⟨"D:\\m1", none, none⟩], ["D:\\m2"], [], [], [], []⟩ "C:\\out",
        FsAction.mkdir "C:\\out"],
       some (PackError.missingPaths "directories"
         (missingOf ⟨[], false, false, fun _ => 0⟩
           ((⟨"App", [⟨"D:\\m1", none, none⟩], ["D:\\m2"], [], [], [], []⟩ :
              Config).directories.map (fun e => e.path))))) :=
  validation_first_category ⟨[], false, false, fun _ => 0⟩
    ⟨"App", [⟨"D:\\m1", none, none⟩], ["D:\\m2"], [], [], [], []⟩
    "C:\\out" false (by simp) (by decide)

/-- C2 counterexample: with one missing directory source and one missing
file source, the raised error names only the directory path — the missing
file is absent from the report — and the output directory was created
before validation. -/
theorem validation_counterexample :
    mainRun ⟨[], false, false, fun _ => 0⟩
        ⟨"App", [⟨"D:\\m1", none, none⟩], ["D:\\m2"], [], [], [], []⟩
        "C:\\out" false =
      ([infoAction ⟨"App", [⟨"D:\\m1", none, none⟩], ["D:\\m2"], [], [], [], []⟩ "C:\\out",
        FsAction.mkdir "C:\\out"],
       some (PackError.missingPaths "directories" ["D:\\m1"])) := by
  decide

/-- C6: packaging into an occupied output directory with `dryRun = false`
terminates with the output-not-empty error having performed no capture
action, while the same dry-run call is entirely independent of the
destination-occupancy fields of the world. -/
theorem output_not_empty_spec (w : World) (cfg : Config) (out : String)
    (h1 : w.outputDirExists = true) (h2 : w.outputDirNonEmpty = true) :
    mainRun w cfg out false =
      ([infoAction cfg out], some (PackError.outputNotEmpty out)) ∧
    mainRun w cfg out true =
      mainRun ⟨w.existingPaths, false, false, w.execCode⟩ cfg out true := by
  constructor
  · unfold mainRun
    rw [h1, h2]
    rfl
  · rfl

/-- Witness for C6 at a concrete occupied destination. -/
theorem output_not_empty_spec_witness :
    mainRun ⟨["C:\\src"], true, true, fun _ => 0⟩
        ⟨"App", [⟨"C:\\src", none, none⟩], [], [], [], [], []⟩ "C:\\out" false =
      ([infoAction ⟨"App", [⟨"C:\\src", none, none⟩], [], [], [], [], []⟩ "C:\\out"],
       some (PackError.outputNotEmpty "C:\\out")) ∧
    mainRun ⟨["C:\\src"], true, true, fun _ => 0⟩
        ⟨"App", [⟨"C:\\src", none, none⟩], [], [], [], [], []⟩ "C:\\out" true =
      mainRun ⟨["C:\\src"], false, false, fun _ => 0⟩
        ⟨"App", [⟨"C:\\src", none, none⟩], [], [], [], [], []⟩ "C:\\out" true :=
  output_not_empty_spec ⟨["C:\\src"], true, true, fun _ => 0⟩
    ⟨"App", [⟨"C:\\src", none, none⟩], [], [], [], [], []⟩ "C:\\out" rfl rfl

end PortablePackager
